import Mathlib

/-!
Verification development for the `graphql_server` request pipeline
(`src/graphql_server/__init__.py`).

The development shallowly embeds the module's functions in Lean.  Python
values that can travel through the JSON layer are modelled by `JValue`
(Python `None` is `JValue.null`).  The Python standard-library `json`
module (`json.dumps` with the separators used by `json_encode`, and
`json.loads`) is modelled by an executable serializer and parser over
`JValue`; JSON numbers are restricted to integers (floats are outside the
model).  The external `graphql` engine (parse / validate / execute /
get_operation_ast) is abstracted as an `Engine` record of functions, since
it is an external collaborator of the repository.
-/

namespace GraphQLServer

/-- A JSON-representable Python value: `None`, booleans, integers, strings,
lists and string-keyed dicts (insertion ordered, modelled as association
lists).  Floats are outside the model. -/
inductive JValue where
  | null : JValue
  | bool (b : Bool) : JValue
  | num (n : Int) : JValue
  | str (s : String) : JValue
  | arr (elems : List JValue) : JValue
  | obj (fields : List (String × JValue)) : JValue

/-- Python truthiness of a `JValue` (`bool(x)` for the modelled values). -/
def pyTruthy : JValue → Bool
  | .null => false
  | .bool b => b
  | .num n => n != 0
  | .str s => !(s == "")
  | .arr es => !es.isEmpty
  | .obj fs => !fs.isEmpty

/-- JSON whitespace characters recognized by the decoder (space, tab,
newline, carriage return). -/
def isWsChar (c : Char) : Bool :=
  c.toNat = 32 || c.toNat = 9 || c.toNat = 10 || c.toNat = 13

/-- Decimal digit test on the code point, as used by the JSON number
scanner. -/
def isDigCh (c : Char) : Bool :=
  48 ≤ c.toNat && c.toNat ≤ 57

/-- Hexadecimal digit value of a character, accepting both cases, as in the
decoder's `\uXXXX` handling. -/
def hexVal (c : Char) : Option Nat :=
  if 48 ≤ c.toNat ∧ c.toNat ≤ 57 then some (c.toNat - 48)
  else if 97 ≤ c.toNat ∧ c.toNat ≤ 102 then some (c.toNat - 87)
  else if 65 ≤ c.toNat ∧ c.toNat ≤ 70 then some (c.toNat - 55)
  else none

/-- The character for a decimal digit `d < 10`. -/
def digitChar10 (d : Nat) : Char := Char.ofNat (48 + d)

/-- The lowercase hex digit character for `d < 16`, as emitted by
`json.dumps` in `\uXXXX` escapes. -/
def hexDigChar (d : Nat) : Char :=
  if d < 10 then Char.ofNat (48 + d) else Char.ofNat (87 + d)

/-- The four lowercase hex digits of `n < 0x10000`, most significant
first. -/
def hexDigits4 (n : Nat) : List Char :=
  [hexDigChar (n / 4096 % 16), hexDigChar (n / 256 % 16),
   hexDigChar (n / 16 % 16), hexDigChar (n % 16)]

/-- Decimal digits of a natural number, as produced by Python's `str` on a
non-negative `int`. -/
def natDigits (m : Nat) : List Char :=
  if _h : m < 10 then [digitChar10 m]
  else natDigits (m / 10) ++ [digitChar10 (m % 10)]
termination_by m
decreasing_by simp_wf; omega

/-- Decimal text of a Python `int`, as produced by `json.dumps`. -/
def serializeInt (n : Int) : List Char :=
  if n < 0 then '-' :: natDigits n.natAbs else natDigits n.toNat

/-- Escape of one character inside a JSON string, following
`json.dumps` with its default `ensure_ascii=True`: backslash and quote get
two-character escapes, printable ASCII is emitted literally, the five
control characters with short escapes use them, every other code point
becomes `\uXXXX` (a surrogate pair for code points above `0xFFFF`). -/
def escapeChar (c : Char) : List Char :=
  if c = '\\' then ['\\', '\\']
  else if c = '"' then ['\\', '"']
  else if 32 ≤ c.toNat ∧ c.toNat ≤ 126 then [c]
  else if c.toNat = 8 then ['\\', 'b']
  else if c.toNat = 9 then ['\\', 't']
  else if c.toNat = 10 then ['\\', 'n']
  else if c.toNat = 12 then ['\\', 'f']
  else if c.toNat = 13 then ['\\', 'r']
  else if c.toNat < 65536 then '\\' :: 'u' :: hexDigits4 c.toNat
  else
    '\\' :: 'u' :: hexDigits4 (55296 + (c.toNat - 65536) / 1024) ++
      ('\\' :: 'u' :: hexDigits4 (56320 + (c.toNat - 65536) % 1024))

/-- Escape of a whole character sequence inside a JSON string. -/
def escapeChars : List Char → List Char
  | [] => []
  | c :: cs => escapeChar c ++ escapeChars cs

/-- JSON text of a string value, including the surrounding quotes. -/
def serializeString (s : String) : List Char :=
  '"' :: escapeChars s.data ++ ['"']

mutual

/-- JSON text of a value with the compact separators `(",", ":")` that
`json_encode` passes to `json.dumps` when `pretty` is false. -/
def serialize : JValue → List Char
  | .null => 'n' :: ['u', 'l', 'l']
  | .bool true => 't' :: ['r', 'u', 'e']
  | .bool false => 'f' :: ['a', 'l', 's', 'e']
  | .num n => serializeInt n
  | .str s => serializeString s
  | .arr [] => '[' :: [']']
  | .arr (e :: es) => '[' :: (serialize e ++ serializeElems es) ++ [']']
  | .obj [] => '{' :: ['}']
  | .obj (f :: fs) =>
      '{' :: (serializeString f.1 ++ ':' :: serialize f.2 ++ serializeMembers fs) ++ ['}']

/-- Comma-led JSON text of the remaining array elements. -/
def serializeElems : List JValue → List Char
  | [] => []
  | e :: es => ',' :: serialize e ++ serializeElems es

/-- Comma-led JSON text of the remaining object members. -/
def serializeMembers : List (String × JValue) → List Char
  | [] => []
  | f :: fs => ',' :: serializeString f.1 ++ ':' :: serialize f.2 ++ serializeMembers fs

end

/-- Newline followed by the indentation of `json.dumps(..., indent=2)` at
nesting level `lvl`. -/
def prettyNl (lvl : Nat) : List Char :=
  '\n' :: List.replicate (2 * lvl) ' '

mutual

/-- JSON text of a value as produced by `json.dumps(data, indent=2,
separators=(",", ": "))`, the branch `json_encode` takes when `pretty` is
true. -/
def serializePretty : Nat → JValue → List Char
  | _, .null => ['n', 'u', 'l', 'l']
  | _, .bool true => ['t', 'r', 'u', 'e']
  | _, .bool false => ['f', 'a', 'l', 's', 'e']
  | _, .num n => serializeInt n
  | _, .str s => serializeString s
  | _, .arr [] => ['[', ']']
  | lvl, .arr (e :: es) =>
      '[' :: (prettyNl (lvl + 1) ++ serializePretty (lvl + 1) e ++
        serializePrettyElems (lvl + 1) es ++ prettyNl lvl) ++ [']']
  | _, .obj [] => ['{', '}']
  | lvl, .obj (f :: fs) =>
      '{' :: (prettyNl (lvl + 1) ++ serializeString f.1 ++ ':' :: ' ' ::
        serializePretty (lvl + 1) f.2 ++ serializePrettyMembers (lvl + 1) fs ++
        prettyNl lvl) ++ ['}']

/-- Comma-led pretty text of the remaining array elements. -/
def serializePrettyElems : Nat → List JValue → List Char
  | _, [] => []
  | lvl, e :: es =>
      ',' :: prettyNl lvl ++ serializePretty lvl e ++ serializePrettyElems lvl es

/-- Comma-led pretty text of the remaining object members. -/
def serializePrettyMembers : Nat → List (String × JValue) → List Char
  | _, [] => []
  | lvl, f :: fs =>
      ',' :: prettyNl lvl ++ serializeString f.1 ++ ':' :: ' ' ::
        serializePretty lvl f.2 ++ serializePrettyMembers lvl fs

end

/-- Cons a decoded character onto the result of decoding the rest of a JSON
string body. -/
def consStr (c : Char) (r : Option (List Char × List Char)) :
    Option (List Char × List Char) :=
  r.map (fun p => (c :: p.1, p.2))

/-- Value of four hex digit characters, most significant first, as in the
decoder's `\uXXXX` handling. -/
def hex4 (h1 h2 h3 h4 : Char) : Option Nat :=
  match hexVal h1, hexVal h2, hexVal h3, hexVal h4 with
  | some a, some b, some c, some d => some (((a * 16 + b) * 16 + c) * 16 + d)
  | _, _, _, _ => none

mutual

/-- Decoder of a JSON string body (the part after the opening quote),
following the strict `json.loads` scanner: a closing quote ends the string,
backslash escapes are handed to `parseEscapeSeq`, unescaped control
characters are rejected. -/
def parseStringBody : List Char → Option (List Char × List Char)
  | [] => none
  | c :: rest =>
    if c = '"' then some ([], rest)
    else if c = '\\' then parseEscapeSeq rest
    else if c.toNat < 32 then none
    else consStr c (parseStringBody rest)
termination_by cs => cs.length
decreasing_by all_goals (simp_wf; try omega)

/-- Decoder of what follows a backslash in a JSON string: `u` starts a hex
escape, the short escapes decode to their characters, anything else is
rejected. -/
def parseEscapeSeq : List Char → Option (List Char × List Char)
  | [] => none
  | e :: rest1 =>
    if e = 'u' then parseUniSeq rest1
    else if e = '"' then consStr '"' (parseStringBody rest1)
    else if e = '\\' then consStr '\\' (parseStringBody rest1)
    else if e = '/' then consStr '/' (parseStringBody rest1)
    else if e = 'b' then consStr (Char.ofNat 8) (parseStringBody rest1)
    else if e = 'f' then consStr (Char.ofNat 12) (parseStringBody rest1)
    else if e = 'n' then consStr (Char.ofNat 10) (parseStringBody rest1)
    else if e = 'r' then consStr (Char.ofNat 13) (parseStringBody rest1)
    else if e = 't' then consStr (Char.ofNat 9) (parseStringBody rest1)
    else none
termination_by cs => cs.length
decreasing_by all_goals (simp_wf; try omega)

/-- Decoder of the four hex digits of a `\uXXXX` escape: a non-surrogate
value decodes directly, a high surrogate must be completed by
`parseLowSurrogate`.  A lone low surrogate, which Python would keep as an
unpaired surrogate code unit, is rejected because it is not a Unicode
scalar value. -/
def parseUniSeq : List Char → Option (List Char × List Char)
  | h1 :: h2 :: h3 :: h4 :: rest2 =>
    (match hex4 h1 h2 h3 h4 with
     | none => none
     | some n =>
       if n < 55296 ∨ 57343 < n then consStr (Char.ofNat n) (parseStringBody rest2)
       else if n < 56320 then parseLowSurrogate n rest2
       else none)
  | _ => none
termination_by cs => cs.length
decreasing_by all_goals (simp_wf; try omega)

/-- Decoder of the `\uXXXX` low surrogate following a high surrogate `n`,
combining the pair into one code point as `json.loads` does. -/
def parseLowSurrogate : Nat → List Char → Option (List Char × List Char)
  | n, b1 :: b2 :: g1 :: g2 :: g3 :: g4 :: rest3 =>
    if b1 = '\\' ∧ b2 = 'u' then
      (match hex4 g1 g2 g3 g4 with
       | none => none
       | some m =>
         if 56320 ≤ m ∧ m < 57344 then
           consStr (Char.ofNat (65536 + (n - 55296) * 1024 + (m - 56320)))
             (parseStringBody rest3)
         else none)
    else none
  | _, _ => none
termination_by _ cs => cs.length
decreasing_by all_goals (simp_wf; try omega)

end

/-- Drop leading JSON whitespace, as the decoder does between tokens. -/
def skipWs : List Char → List Char
  | [] => []
  | c :: rest => if isWsChar c then skipWs rest else c :: rest

/-- Greedy decimal-digit scan with an accumulator, the integer part of the
decoder's number regex. -/
def readDigitsAcc : Nat → List Char → Nat × List Char
  | acc, [] => (acc, [])
  | acc, c :: rest =>
    if isDigCh c then readDigitsAcc (acc * 10 + (c.toNat - 48)) rest
    else (acc, c :: rest)

/-- Integer part of a JSON number per the decoder's regex `(0|[1-9][0-9]*)`:
a leading `0` is not followed by more digits. -/
def readIntDigits : List Char → Option (Nat × List Char)
  | [] => none
  | c :: rest =>
    if !isDigCh c then none
    else if c = '0' then some (0, rest)
    else some (readDigitsAcc (c.toNat - 48) rest)

/-- After an integer's digits the decoder's number regex would continue on a
digit, a decimal point or an exponent marker; continuing would either extend
the integer or produce a float (outside the model), so such continuations
are rejected. -/
def numContOk : List Char → Bool
  | [] => true
  | d :: _ => !(isDigCh d || d = '.' || d = 'e' || d = 'E')

/-- Recording of one decoded object member, matching Python's construction
of a `dict` from the scanned pairs: an existing key keeps its position but
takes the new value, a new key is appended. -/
def addField (pairs : List (String × JValue)) (k : String) (v : JValue) :
    List (String × JValue) :=
  if pairs.any (fun p => p.1 == k) then
    pairs.map (fun p => if p.1 == k then (k, v) else p)
  else pairs ++ [(k, v)]

mutual

/-- Fuel-indexed JSON value decoder modelling the strict `json.loads`
scanner on the value domain of `JValue` (floats, which Python would accept,
are outside the model and rejected). -/
def parseValue : Nat → List Char → Option (JValue × List Char)
  | 0, _ => none
  | fuel + 1, cs =>
    match skipWs cs with
    | [] => none
    | c :: rest =>
      if c = '"' then
        (parseStringBody rest).map (fun p => (.str (String.mk p.1), p.2))
      else if c = 'n' then
        match rest with
        | x1 :: x2 :: x3 :: rest1 =>
          if x1 = 'u' ∧ x2 = 'l' ∧ x3 = 'l' then some (.null, rest1) else none
        | _ => none
      else if c = 't' then
        match rest with
        | x1 :: x2 :: x3 :: rest1 =>
          if x1 = 'r' ∧ x2 = 'u' ∧ x3 = 'e' then some (.bool true, rest1)
          else none
        | _ => none
      else if c = 'f' then
        match rest with
        | x1 :: x2 :: x3 :: x4 :: rest1 =>
          if x1 = 'a' ∧ x2 = 'l' ∧ x3 = 's' ∧ x4 = 'e' then
            some (.bool false, rest1)
          else none
        | _ => none
      else if c = '[' then
        match skipWs rest with
        | d :: rest1 =>
          if d = ']' then some (JValue.arr [], rest1) else parseElems fuel [] rest
        | [] => parseElems fuel [] rest
      else if c = '{' then
        match skipWs rest with
        | d :: rest1 =>
          if d = '}' then some (.obj [], rest1) else parseMembers fuel [] rest
        | [] => parseMembers fuel [] rest
      else if c = '-' then
        match readIntDigits rest with
        | none => none
        | some (n, rest1) =>
          if numContOk rest1 then some (.num (-(n : Int)), rest1) else none
      else if isDigCh c then
        match readIntDigits (c :: rest) with
        | none => none
        | some (n, rest1) =>
          if numContOk rest1 then some (.num (n : Int), rest1) else none
      else none

/-- Array-element loop of the decoder: parse a value, then continue on a
comma or close on a bracket. -/
def parseElems : Nat → List JValue → List Char → Option (JValue × List Char)
  | 0, _, _ => none
  | fuel + 1, acc, cs =>
    match parseValue fuel cs with
    | none => none
    | some (v, rest) =>
      match skipWs rest with
      | d :: rest1 =>
        if d = ',' then parseElems fuel (acc ++ [v]) rest1
        else if d = ']' then some (.arr (acc ++ [v]), rest1)
        else none
      | [] => none

/-- Object-member loop of the decoder: parse a quoted key, a colon and a
value, record the pair, then continue on a comma or close on a brace. -/
def parseMembers : Nat → List (String × JValue) → List Char →
    Option (JValue × List Char)
  | 0, _, _ => none
  | fuel + 1, acc, cs =>
    match skipWs cs with
    | q :: rest =>
      if q = '"' then
        match parseStringBody rest with
        | none => none
        | some (k, rest1) =>
          match skipWs rest1 with
          | d1 :: rest2 =>
            if d1 = ':' then
              match parseValue fuel rest2 with
              | none => none
              | some (v, rest3) =>
                match skipWs rest3 with
                | d2 :: rest4 =>
                  if d2 = ',' then
                    parseMembers fuel (addField acc (String.mk k) v) rest4
                  else if d2 = '}' then
                    some (.obj (addField acc (String.mk k) v), rest4)
                  else none
                | [] => none
            else none
          | [] => none
      else none
    | [] => none

end

/-- Model of `json.loads`: decode one JSON value and require only trailing
whitespace after it, reporting failure as `none` (Python raises
`JSONDecodeError`, caught as a generic `Exception` by the callers in this
module).  The fuel `length + 1` dominates the nesting depth, which grows by
at least one consumed character per level. -/
def json_loads (s : String) : Option JValue :=
  match parseValue (s.data.length + 1) s.data with
  | some (v, rest) => if skipWs rest = [] then some v else none
  | none => none

/-- Model of `json_encode` (src lines 112-116): compact separators
`(",", ":")` by default, `indent=2` with separators `(",", ": ")` when
`pretty` is true. -/
def json_encode (data : JValue) (pretty : Bool) : String :=
  if !pretty then String.mk (serialize data)
  else String.mk (serializePretty 0 data)

/-- Modelled from the spec: `HttpQueryError` from the repository's `error`
module, which is not under `src/` — a structural error carrying a numeric
status code, a message, and optional response headers (spec section 7:
"Each carries a numeric status code (400 or 405) and optional response
headers"). -/
structure HttpQueryError where
  status : Nat
  message : String
  headers : Option (List (String × String)) := none

/-- Model of the external `graphql.GraphQLError`: the claims only depend on
errors being opaque payloads with a message (`execute_graphql_request`
wraps a non-GraphQL parse exception as `GraphQLError(str(e))`). -/
structure GError where
  message : String

/-- Model of the external `graphql.ExecutionResult`: `data` may be `None`
and `errors` is a list (Python's `None` errors and `[]` are conflated, both
being falsy in the only test the module performs on them). -/
structure ExecutionResult where
  data : Option JValue := none
  errors : List GError := []

/-- Outcome of the external engine's `parse`: a document, a raised
`GraphQLError`, or some other raised exception (carrying its `str`). -/
inductive ParseOutcome (Doc : Type) where
  | ok (document : Doc) : ParseOutcome Doc
  | graphqlError (e : GError) : ParseOutcome Doc
  | otherError (message : String) : ParseOutcome Doc

/-- Model of the node returned by the engine's `get_operation_ast`: the
module reads `operation_ast.operation.value`. -/
structure OperationNode where
  value : String

/-- Model of the node's `operation` attribute holder. -/
structure OperationAst where
  operation : OperationNode

/-- The external GraphQL engine (`parse`, `get_operation_ast`, `validate`,
`execute` imported from `graphql`), abstracted over a document type and a
schema type. -/
structure Engine (Doc Schema : Type) where
  parse : String → ParseOutcome Doc
  get_operation_ast : Doc → Option String → Option OperationAst
  validate : Schema → Doc → List GError
  execute : Schema → Doc → Option JValue → Option String → ExecutionResult

/-- The namedtuple `GraphQLParams(query, variables, operation_name)`. -/
structure GraphQLParams where
  query : Option String
  variables_ : Option JValue
  operation_name : Option String

/-- The namedtuple `GraphQLResponse(result, status_code)`; a Python `None`
result is modelled as `JValue.null`. -/
structure GraphQLResponse where
  result : JValue
  status_code : Nat

/-- Python runtime errors other than `HttpQueryError` that the module can
raise: the `NameError` from an unbound local, and the `ValueError` from
unpacking `zip(*[])`. -/
inductive PyExc where
  | nameError (name : String) : PyExc
  | valueError (message : String) : PyExc

/-- The two exception classes `run_http_query` can select as `catch_exc`:
`HttpQueryError` when `catch` is true, else `SkipException`. -/
inductive CatchClass where
  | httpQueryError : CatchClass
  | skipException : CatchClass

/-- Whether an exception raised by `execute_graphql_request` (always an
`HttpQueryError`) is an instance of the selected catch class;
`SkipException` is never raised there, so it catches nothing. -/
def catches : CatchClass → HttpQueryError → Bool
  | .httpQueryError, _ => true
  | .skipException, _ => false

/-- One raw request mapping as the module consumes it: the values of the
keys `query`, `variables` and `operationName` (`none` when absent). -/
structure RequestItem where
  query : Option String := none
  variables_ : Option JValue := none
  operationName : Option String := none

/-- The `data` argument of `run_http_query`: a single mapping, a list of
mappings, or a value of another type (carrying its `repr` for the error
message). -/
inductive PyData where
  | dict (item : RequestItem) : PyData
  | list (items : List RequestItem) : PyData
  | other (text : String) : PyData

/-- Python truthiness of an optional string (`None` and `""` are falsy). -/
def truthyStr : Option String → Bool
  | none => false
  | some s => !(s == "")

/-- Python `a or b` on optional strings. -/
def pyOrStr (a b : Option String) : Option String :=
  if truthyStr a then a else b

/-- Python truthiness of an optional `JValue` (`None` is falsy). -/
def truthyOptJ : Option JValue → Bool
  | none => false
  | some v => pyTruthy v

/-- Python `a or b` on optional values. -/
def pyOrJ (a b : Option JValue) : Option JValue :=
  if truthyOptJ a then a else b

/-- Model of `load_json_variables` (src lines 119-125): a truthy string is
decoded as JSON, failure raising `HttpQueryError(400, "Variables are
invalid JSON.")`; anything else is returned unchanged. -/
def load_json_variables (variables_ : Option JValue) :
    Except HttpQueryError (Option JValue) :=
  match variables_ with
  | some (.str s) =>
    if !(s == "") then
      match json_loads s with
      | some v => .ok (some v)
      | none => .error ⟨400, "Variables are invalid JSON.", none⟩
    else .ok variables_
  | _ => .ok variables_

/-- Model of `get_graphql_params` (src lines 128-134): each field falls back
from the item to the extra query data on falsiness, and the variables pass
through `load_json_variables`. -/
def get_graphql_params (data query_data : RequestItem) :
    Except HttpQueryError GraphQLParams :=
  let query := pyOrStr data.query query_data.query
  let variables_ := pyOrJ data.variables_ query_data.variables_
  let operation_name := pyOrStr data.operationName query_data.operationName
  match load_json_variables variables_ with
  | .ok v => .ok ⟨query, v, operation_name⟩
  | .error e => .error e

/-- The validation-and-execution tail of `execute_graphql_request` (src
lines 200-209), reached once parsing succeeded and the method restriction
did not fire: validation errors produce `ExecutionResult(None, errors)`,
otherwise the engine's `execute` runs with the variables and operation
name. -/
def validate_and_execute {Doc Schema : Type} (E : Engine Doc Schema)
    (schema : Schema) (document : Doc) (params : GraphQLParams) :
    ExecutionResult :=
  let validation_errors := E.validate schema document
  if validation_errors.isEmpty then
    E.execute schema document params.variables_ params.operation_name
  else ⟨none, validation_errors⟩

/-- Model of `execute_graphql_request` (src lines 172-209). -/
def execute_graphql_request {Doc Schema : Type} (E : Engine Doc Schema)
    (schema : Schema) (params : GraphQLParams)
    (allow_only_query : Bool := false) :
    Except HttpQueryError ExecutionResult :=
  if !truthyStr params.query then
    .error ⟨400, "Must provide query string.", none⟩
  else
    match E.parse (params.query.getD "") with
    | .graphqlError e => .ok ⟨none, [e]⟩
    | .otherError msg => .ok ⟨none, [⟨msg⟩]⟩
    | .ok document =>
      if allow_only_query then
        match E.get_operation_ast document params.operation_name with
        | some operation_ast =>
          if !(operation_ast.operation.value == "query") then
            .error ⟨405,
              "Can only perform a " ++ operation_ast.operation.value ++
                " operation from a POST request.",
              some [("Allow", "POST")]⟩
          else .ok (validate_and_execute E schema document params)
        | none => .ok (validate_and_execute E schema document params)
      else .ok (validate_and_execute E schema document params)

/-- Model of `get_response` (src lines 137-149): an exception raised by
`execute_graphql_request` that is an instance of the selected catch class
is swallowed, yielding `None`. -/
def get_response {Doc Schema : Type} (E : Engine Doc Schema)
    (schema : Schema) (params : GraphQLParams) (catchCls : CatchClass)
    (allow_only_query : Bool := false) :
    Except HttpQueryError (Option ExecutionResult) :=
  match execute_graphql_request E schema params allow_only_query with
  | .ok execution_result => .ok (some execution_result)
  | .error e => if catches catchCls e then .ok none else .error e

/-- Sequential effectful map: a Python list comprehension whose element
expression may raise, propagating the first exception. -/
def listMapExc {A B E : Type} (f : A → Except E B) : List A → Except E (List B)
  | [] => .ok []
  | a :: as =>
    match f a with
    | .error e => .error e
    | .ok b =>
      match listMapExc f as with
      | .error e => .error e
      | .ok bs => .ok (b :: bs)

/-- Model of `run_http_query` (src lines 42-90). -/
def run_http_query {Doc Schema : Type} (E : Engine Doc Schema)
    (schema : Schema) (request_method : String) (data : PyData)
    (query_data : Option RequestItem := none) (batch_enabled : Bool := false)
    (catchErrors : Bool := false) :
    Except HttpQueryError (List (Option ExecutionResult) × List GraphQLParams) :=
  if !(request_method == "get" || request_method == "post") then
    .error ⟨405, "GraphQL only supports GET and POST requests.",
      some [("Allow", "GET, POST")]⟩
  else
    let catch_exc := if catchErrors then CatchClass.httpQueryError
      else CatchClass.skipException
    let is_batch := match data with | .list _ => true | _ => false
    let allow_only_query := request_method == "get"
    match (match data with
           | .dict item => .ok [item]
           | .list items =>
             if !batch_enabled then
               .error ⟨400, "Batch GraphQL requests are not enabled.", none⟩
             else .ok items
           | .other text =>
             .error ⟨400,
               "GraphQL params should be a dict. Received " ++ text ++ ".",
               none⟩ :
           Except HttpQueryError (List RequestItem)) with
    | .error e => .error e
    | .ok dataList =>
      if dataList.isEmpty then
        .error ⟨400, "Received an empty list in the batch request.", none⟩
      else
        let extra_data := if !is_batch then query_data.getD {} else {}
        match listMapExc (fun entry => get_graphql_params entry extra_data)
            dataList with
        | .error e => .error e
        | .ok all_params =>
          match listMapExc
              (fun params =>
                get_response E schema params catch_exc allow_only_query)
              all_params with
          | .error e => .error e
          | .ok responses => .ok (responses, all_params)

/-- Model of the external `graphql.format_error` default formatter: a
mapping carrying the error's message (the real formatter also adds
locations and path when present; no claim depends on that). -/
def format_error_default (e : GError) : JValue :=
  .obj [("message", .str e.message)]

/-- Model of `format_execution_result` (src lines 152-169).  The local
variable `format_errors` is only assigned when the `format_error` argument
is falsy; when a formatter is supplied and the result has errors, the
reference to `format_errors` is an unbound local, raising `NameError` —
modelled by the optional binding. -/
def format_execution_result (execution_result : Option ExecutionResult)
    (format_error : Option (GError → JValue) := none) :
    Except PyExc GraphQLResponse :=
  let status_code := 200
  match execution_result with
  | some r =>
    if !r.errors.isEmpty then
      match (if format_error.isNone then some format_error_default
             else none : Option (GError → JValue)) with
      | some format_errors =>
        .ok ⟨.obj [("errors", .arr (r.errors.map format_errors))], status_code⟩
      | none => .error (.nameError "format_errors")
    else .ok ⟨.obj [("data", r.data.getD .null)], status_code⟩
  | none => .ok ⟨.null, status_code⟩

/-- Model of `encode_execution_results` (src lines 93-109): format every
result, take the maximum status code, unwrap the single body unless the
request was a batch, and feed the aggregate to the caller's encoder.
`zip(*responses)` on an empty list raises `ValueError`. -/
def encode_execution_results {α : Type}
    (execution_results : List (Option ExecutionResult))
    (format_error : Option (GError → JValue)) (is_batch : Bool)
    (encode : JValue → α) : Except PyExc (α × Nat) :=
  match listMapExc
      (fun er => format_execution_result er format_error) execution_results with
  | .error e => .error e
  | .ok [] => .error (.valueError "not enough values to unpack (expected 2, got 0)")
  | .ok (r0 :: rest) =>
    let status_code := (rest.map GraphQLResponse.status_code).foldl Nat.max r0.status_code
    let result : JValue :=
      if !is_batch then r0.result
      else .arr ((r0 :: rest).map GraphQLResponse.result)
    .ok (encode result, status_code)

/-- Whether the engine's parse step failed (raised), per the two `except`
arms of `execute_graphql_request` (src lines 180-184). -/
def parseFailed {Doc : Type} : ParseOutcome Doc → Bool
  | .ok _ => false
  | .graphqlError _ => true
  | .otherError _ => true

/-- The GraphQL-level error under which `execute_graphql_request` surfaces a
parse failure (src lines 180-184): a raised `GraphQLError` is kept, any
other exception is wrapped as `GraphQLError(str(e))`.  On a successful
parse this is unused. -/
def wrapParseError {Doc : Type} : ParseOutcome Doc → GError
  | .ok _ => ⟨""⟩
  | .graphqlError e => e
  | .otherError msg => ⟨msg⟩

/-- A concrete single-behaviour engine over trivial document and schema
types, used to instantiate the universally quantified theorems at concrete
inputs: `parse` always gives `po`, `get_operation_ast` always gives `op`,
validation passes, and execution answers a fixed object. -/
def testEngine (po : ParseOutcome Unit) (op : Option OperationAst) :
    Engine Unit Unit where
  parse := fun _ => po
  get_operation_ast := fun _ _ => op
  validate := fun _ _ => []
  execute := fun _ _ _ _ => ⟨some (.obj [("ok", .bool true)]), []⟩

/-- The successful value of an `Except`, with raised-and-caught mapped to
`none` — the shape of one batch slot after per-item containment. -/
def okOrNone {ε α : Type} : Except ε α → Option α
  | .ok a => some a
  | .error _ => none

/-- The first `HttpQueryError` raised when executing the given parameter
tuples in order, if any — the error that aborts the batch when containment
is off. -/
def firstExecError {Doc Schema : Type} (E : Engine Doc Schema)
    (schema : Schema) (allow_only_query : Bool) :
    List GraphQLParams → Option HttpQueryError
  | [] => none
  | p :: rest =>
    match execute_graphql_request E schema p allow_only_query with
    | .error e => some e
    | .ok _ => firstExecError E schema allow_only_query rest

/-- The body `format_execution_result` produces for one outcome with the
default formatter, used to state order preservation through encoding. -/
def formatBodyDefault (er : Option ExecutionResult) : JValue :=
  match format_execution_result er none with
  | .ok g => g.result
  | .error _ => .null

/-- Whether some pair in the association list carries the given key (the
`k in dict` test on the modelled dict). -/
def memKey (k : String) : List (String × JValue) → Bool
  | [] => false
  | f :: fs => (f.1 == k) || memKey k fs

mutual

/-- Number of decoder steps needed for a value, used as a fuel bound. -/
def jsize : JValue → Nat
  | .num _ => 1
  | .str _ => 1
  | .arr es => jsizeElems es + 1
  | .obj fs => jsizeMembers fs + 1
  | .null => 1
  | .bool _ => 1

/-- Fuel bound for an array-element suffix. -/
def jsizeElems : List JValue → Nat
  | [] => 0
  | e :: es => jsize e + jsizeElems es + 1

/-- Fuel bound for an object-member suffix. -/
def jsizeMembers : List (String × JValue) → Nat
  | [] => 0
  | f :: fs => jsize f.2 + jsizeMembers fs + 1

end

mutual

/-- Whether every object reachable in the value has pairwise-distinct keys —
automatically true of every value built from Python dicts, whose keys are
unique. -/
def nodupKeys : JValue → Bool
  | .null => true
  | .bool _ => true
  | .num _ => true
  | .str _ => true
  | .arr es => nodupKeysElems es
  | .obj fs => nodupKeysMembers fs

/-- Key uniqueness for all elements of an array. -/
def nodupKeysElems : List JValue → Bool
  | [] => true
  | e :: es => nodupKeys e && nodupKeysElems es

/-- Key uniqueness within an object's member list and inside its values. -/
def nodupKeysMembers : List (String × JValue) → Bool
  | [] => true
  | f :: fs => !memKey f.1 fs && nodupKeys f.2 && nodupKeysMembers fs

end

/-- One step of the decimal-digit fold performed by `readDigitsAcc`. -/
def foldDigit (a : Nat) (c : Char) : Nat := a * 10 + (c.toNat - 48)

/-- No leading decimal digit: the digit scan stops immediately on this
input. -/
def noDigitHead (cs : List Char) : Prop :=
  ∀ c, cs.head? = some c → isDigCh c = false

theorem char_valid_toNat (c : Char) :
    c.toNat < 55296 ∨ (57343 < c.toNat ∧ c.toNat < 1114112) := c.valid

theorem char_toNat_ofNat {n : Nat}
    (h : n < 55296 ∨ (57343 < n ∧ n < 1114112)) :
    (Char.ofNat n).toNat = n := by
  rw [Char.ofNat, dif_pos h]
  rfl

theorem char_ne_of_toNat_ne {c d : Char} (h : c.toNat ≠ d.toNat) : c ≠ d :=
  fun he => h (he ▸ rfl)

theorem char_eq_ofNat_of_toNat {c : Char} {n : Nat} (h : c.toNat = n) :
    c = Char.ofNat n := by
  rw [← h, Char.ofNat_toNat]

theorem hexVal_hexDigChar {d : Nat} (h : d < 16) :
    hexVal (hexDigChar d) = some d := by
  rw [hexDigChar]
  by_cases h10 : d < 10
  · rw [if_pos h10]
    have ht : (Char.ofNat (48 + d)).toNat = 48 + d :=
      char_toNat_ofNat (Or.inl (by omega))
    rw [hexVal, ht, if_pos (by omega)]
    congr 1
    omega
  · rw [if_neg h10]
    have ht : (Char.ofNat (87 + d)).toNat = 87 + d :=
      char_toNat_ofNat (Or.inl (by omega))
    rw [hexVal, ht, if_neg (by omega), if_pos (by omega)]
    congr 1
    omega

theorem hex4_hexDigits4 {n : Nat} (h : n < 65536) :
    hex4 (hexDigChar (n / 4096 % 16)) (hexDigChar (n / 256 % 16))
      (hexDigChar (n / 16 % 16)) (hexDigChar (n % 16)) = some n := by
  rw [hex4]
  rw [hexVal_hexDigChar (by omega), hexVal_hexDigChar (by omega),
    hexVal_hexDigChar (by omega), hexVal_hexDigChar (by omega)]
  show some (((n / 4096 % 16 * 16 + n / 256 % 16) * 16 + n / 16 % 16) * 16 +
    n % 16) = some n
  congr 1
  omega

theorem parseUniSeq_surrogate (uh ul : Nat) (hhi : 55296 ≤ uh ∧ uh < 56320)
    (hlo : 56320 ≤ ul ∧ ul < 57344) (t : List Char) :
    parseUniSeq (hexDigits4 uh ++ '\\' :: 'u' :: (hexDigits4 ul ++ t)) =
      consStr (Char.ofNat (65536 + (uh - 55296) * 1024 + (ul - 56320)))
        (parseStringBody t) := by
  rw [hexDigits4, hexDigits4]
  simp only [List.cons_append, List.nil_append]
  rw [parseUniSeq, hex4_hexDigits4 (show uh < 65536 by omega)]
  show (if uh < 55296 ∨ 57343 < uh then
      consStr (Char.ofNat uh) (parseStringBody ('\\' :: 'u' ::
        hexDigChar (ul / 4096 % 16) :: hexDigChar (ul / 256 % 16) ::
        hexDigChar (ul / 16 % 16) :: hexDigChar (ul % 16) :: t))
    else if uh < 56320 then
      parseLowSurrogate uh ('\\' :: 'u' ::
        hexDigChar (ul / 4096 % 16) :: hexDigChar (ul / 256 % 16) ::
        hexDigChar (ul / 16 % 16) :: hexDigChar (ul % 16) :: t)
    else none) = _
  rw [if_neg (by omega), if_pos (show uh < 56320 by omega)]
  rw [parseLowSurrogate,
    if_pos (⟨rfl, rfl⟩ : ('\\' : Char) = '\\' ∧ ('u' : Char) = 'u'),
    hex4_hexDigits4 (show ul < 65536 by omega)]
  show (if 56320 ≤ ul ∧ ul < 57344 then
      consStr (Char.ofNat (65536 + (uh - 55296) * 1024 + (ul - 56320)))
        (parseStringBody t)
    else none) = _
  rw [if_pos (by omega)]

theorem parseStringBody_escapeChar (c : Char) (t : List Char) :
    parseStringBody (escapeChar c ++ t) = consStr c (parseStringBody t) := by
  by_cases h1 : c = '\\'
  · subst h1
    show parseStringBody ('\\' :: '\\' :: t) = _
    rw [parseStringBody, parseEscapeSeq]
    rfl
  by_cases h2 : c = '"'
  · subst h2
    show parseStringBody ('\\' :: '"' :: t) = _
    rw [parseStringBody, parseEscapeSeq]
    rfl
  by_cases h3 : 32 ≤ c.toNat ∧ c.toNat ≤ 126
  · rw [escapeChar, if_neg h1, if_neg h2, if_pos h3, List.singleton_append,
      parseStringBody, if_neg h2, if_neg h1,
      if_neg (show ¬c.toNat < 32 by omega)]
  by_cases e8 : c.toNat = 8
  · rw [escapeChar, if_neg h1, if_neg h2, if_neg h3, if_pos e8]
    simp only [List.cons_append, List.nil_append]
    rw [parseStringBody, parseEscapeSeq, char_eq_ofNat_of_toNat e8]
    rfl
  by_cases e9 : c.toNat = 9
  · rw [escapeChar, if_neg h1, if_neg h2, if_neg h3, if_neg e8, if_pos e9]
    simp only [List.cons_append, List.nil_append]
    rw [parseStringBody, parseEscapeSeq, char_eq_ofNat_of_toNat e9]
    rfl
  by_cases e10 : c.toNat = 10
  · rw [escapeChar, if_neg h1, if_neg h2, if_neg h3, if_neg e8, if_neg e9,
      if_pos e10]
    simp only [List.cons_append, List.nil_append]
    rw [parseStringBody, parseEscapeSeq, char_eq_ofNat_of_toNat e10]
    rfl
  by_cases e12 : c.toNat = 12
  · rw [escapeChar, if_neg h1, if_neg h2, if_neg h3, if_neg e8, if_neg e9,
      if_neg e10, if_pos e12]
    simp only [List.cons_append, List.nil_append]
    rw [parseStringBody, parseEscapeSeq, char_eq_ofNat_of_toNat e12]
    rfl
  by_cases e13 : c.toNat = 13
  · rw [escapeChar, if_neg h1, if_neg h2, if_neg h3, if_neg e8, if_neg e9,
      if_neg e10, if_neg e12, if_pos e13]
    simp only [List.cons_append, List.nil_append]
    rw [parseStringBody, parseEscapeSeq, char_eq_ofNat_of_toNat e13]
    rfl
  by_cases hbmp : c.toNat < 65536
  · rw [escapeChar, if_neg h1, if_neg h2, if_neg h3, if_neg e8, if_neg e9,
      if_neg e10, if_neg e12, if_neg e13, if_pos hbmp, hexDigits4]
    simp only [List.cons_append, List.nil_append]
    rw [parseStringBody, parseEscapeSeq, parseUniSeq, hex4_hexDigits4 hbmp]
    have hv := char_valid_toNat c
    show (if c.toNat < 55296 ∨ 57343 < c.toNat then
        consStr (Char.ofNat c.toNat) (parseStringBody t)
      else if c.toNat < 56320 then parseLowSurrogate c.toNat t else none) =
      consStr c (parseStringBody t)
    rw [if_pos (show c.toNat < 55296 ∨ 57343 < c.toNat by omega),
      Char.ofNat_toNat]
  · have hv := char_valid_toNat c
    rw [escapeChar, if_neg h1, if_neg h2, if_neg h3, if_neg e8, if_neg e9,
      if_neg e10, if_neg e12, if_neg e13, if_neg hbmp]
    simp only [List.cons_append, List.nil_append, List.append_assoc]
    rw [parseStringBody, parseEscapeSeq,
      parseUniSeq_surrogate (55296 + (c.toNat - 65536) / 1024)
        (56320 + (c.toNat - 65536) % 1024) (by omega) (by omega) t,
      show 65536 + (55296 + (c.toNat - 65536) / 1024 - 55296) * 1024 +
        (56320 + (c.toNat - 65536) % 1024 - 56320) = c.toNat by omega,
      Char.ofNat_toNat]
    rfl

theorem parseStringBody_escapeChars (s : List Char) (t : List Char) :
    parseStringBody (escapeChars s ++ '"' :: t) = some (s, t) := by
  induction s with
  | nil =>
    rw [escapeChars, List.nil_append, parseStringBody, if_pos rfl]
  | cons c cs ih =>
    rw [escapeChars, List.append_assoc, parseStringBody_escapeChar, ih]
    rfl

theorem toNat_digitChar10 {d : Nat} (h : d < 10) :
    (digitChar10 d).toNat = 48 + d := by
  rw [digitChar10]
  exact char_toNat_ofNat (Or.inl (by omega))

theorem isDigCh_digitChar10 {d : Nat} (h : d < 10) :
    isDigCh (digitChar10 d) = true := by
  simp only [isDigCh, toNat_digitChar10 h, Bool.and_eq_true, decide_eq_true_eq]
  omega

theorem natDigits_all_digits :
    ∀ m : Nat, ∀ c ∈ natDigits m, isDigCh c = true := by
  intro m
  induction m using Nat.strong_induction_on with
  | _ m ih =>
    intro c hc
    by_cases h10 : m < 10
    · rw [natDigits, dif_pos h10] at hc
      simp only [List.mem_singleton] at hc
      subst hc
      exact isDigCh_digitChar10 h10
    · rw [natDigits, dif_neg h10] at hc
      rw [List.mem_append] at hc
      rcases hc with hc | hc
      · exact ih (m / 10) (by omega) c hc
      · simp only [List.mem_singleton] at hc
        subst hc
        exact isDigCh_digitChar10 (by omega)

theorem natDigits_head :
    ∀ m : Nat, 1 ≤ m →
      ∃ c cs, natDigits m = c :: cs ∧ isDigCh c = true ∧ ¬c = '0' := by
  intro m
  induction m using Nat.strong_induction_on with
  | _ m ih =>
    intro h1
    by_cases h10 : m < 10
    · refine ⟨digitChar10 m, [], ?_, isDigCh_digitChar10 h10, ?_⟩
      · rw [natDigits, dif_pos h10]
      · apply char_ne_of_toNat_ne
        rw [toNat_digitChar10 h10]
        have h0 : ('0').toNat = 48 := rfl
        omega
    · obtain ⟨c, cs, hnd, hdig, hne⟩ := ih (m / 10) (by omega) (by omega)
      refine ⟨c, cs ++ [digitChar10 (m % 10)], ?_, hdig, hne⟩
      rw [natDigits, dif_neg h10, hnd, List.cons_append]

theorem foldl_natDigits :
    ∀ m : Nat, ∀ acc : Nat,
      List.foldl foldDigit acc (natDigits m) =
        acc * 10 ^ (natDigits m).length + m := by
  intro m
  induction m using Nat.strong_induction_on with
  | _ m ih =>
    intro acc
    by_cases h10 : m < 10
    · rw [natDigits, dif_pos h10]
      simp only [List.foldl_cons, List.foldl_nil, List.length_singleton,
        pow_one, foldDigit, toNat_digitChar10 h10]
      omega
    · rw [natDigits, dif_neg h10, List.foldl_append, ih (m / 10) (by omega)]
      simp only [List.foldl_cons, List.foldl_nil, foldDigit,
        toNat_digitChar10 (show m % 10 < 10 by omega)]
      rw [List.length_append, List.length_singleton, pow_succ, ← mul_assoc]
      generalize acc * 10 ^ (natDigits (m / 10)).length = A
      omega

theorem numContOk_noDigitHead {rest : List Char} (h : numContOk rest = true) :
    noDigitHead rest := by
  intro c hc
  cases rest with
  | nil => cases hc
  | cons d ds =>
    simp only [List.head?_cons, Option.some.injEq] at hc
    subst hc
    rw [numContOk] at h
    simp only [Bool.not_eq_eq_eq_not, Bool.not_true, Bool.or_eq_false_iff] at h
    exact h.1.1.1

theorem readDigitsAcc_append :
    ∀ (ds : List Char), (∀ c ∈ ds, isDigCh c = true) →
      ∀ (acc : Nat) (rest : List Char), noDigitHead rest →
        readDigitsAcc acc (ds ++ rest) =
          (List.foldl foldDigit acc ds, rest) := by
  intro ds
  induction ds with
  | nil =>
    intro _ acc rest hrest
    rw [List.nil_append, List.foldl_nil]
    cases rest with
    | nil => rw [readDigitsAcc]
    | cons r rs =>
      rw [readDigitsAcc]
      have hr := hrest r rfl
      rw [if_neg (by simp [hr])]
  | cons d ds ih =>
    intro hds acc rest hrest
    rw [List.cons_append, readDigitsAcc,
      if_pos (hds d (List.mem_cons_self d ds)), List.foldl_cons]
    have : acc * 10 + (d.toNat - 48) = foldDigit acc d := rfl
    rw [this]
    exact ih (fun x hx => hds x (List.mem_cons_of_mem d hx)) _ rest hrest

theorem readIntDigits_natDigits (m : Nat) {rest : List Char}
    (hrest : noDigitHead rest) :
    readIntDigits (natDigits m ++ rest) = some (m, rest) := by
  rcases Nat.eq_zero_or_pos m with h0 | hpos
  · subst h0
    rw [natDigits, dif_pos (by omega),
      show digitChar10 0 = '0' by decide, List.singleton_append, readIntDigits,
      if_neg (by decide), if_pos rfl]
  · obtain ⟨c, cs, hnd, hdig, hne0⟩ := natDigits_head m hpos
    have hcs : ∀ x ∈ cs, isDigCh x = true := fun x hx =>
      natDigits_all_digits m x (by rw [hnd]; exact List.mem_cons_of_mem c hx)
    rw [hnd, List.cons_append, readIntDigits, if_neg (by simp [hdig]),
      if_neg hne0, readDigitsAcc_append cs hcs _ rest hrest]
    have hf := foldl_natDigits m 0
    rw [hnd, List.foldl_cons] at hf
    simp only [foldDigit, Nat.zero_mul, Nat.zero_add, zero_mul, zero_add] at hf
    rw [hf]

theorem skipWs_cons_of_not_ws {c : Char} (h : isWsChar c = false)
    (cs : List Char) : skipWs (c :: cs) = c :: cs := by
  rw [skipWs, if_neg (by simp [h])]

theorem parseValue_digit_head (fuel : Nat) (c : Char) (cs : List Char)
    (hdig : isDigCh c = true) :
    parseValue (fuel + 1) (c :: cs) =
      (match readIntDigits (c :: cs) with
       | none => none
       | some (n, rest1) =>
         if numContOk rest1 then some (.num (n : Int), rest1) else none) := by
  simp only [isDigCh, Bool.and_eq_true, decide_eq_true_eq] at hdig
  have hws : isWsChar c = false := by
    simp only [isWsChar, Bool.or_eq_false_iff, decide_eq_false_iff_not]
    refine ⟨⟨⟨?_, ?_⟩, ?_⟩, ?_⟩ <;> omega
  have hq : ¬(c = '"') := char_ne_of_toNat_ne
    (by have h2 : ('"').toNat = 34 := rfl; omega)
  have hn : ¬(c = 'n') := char_ne_of_toNat_ne
    (by have h2 : ('n').toNat = 110 := rfl; omega)
  have ht : ¬(c = 't') := char_ne_of_toNat_ne
    (by have h2 : ('t').toNat = 116 := rfl; omega)
  have hf : ¬(c = 'f') := char_ne_of_toNat_ne
    (by have h2 : ('f').toNat = 102 := rfl; omega)
  have hlb : ¬(c = '[') := char_ne_of_toNat_ne
    (by have h2 : ('[').toNat = 91 := rfl; omega)
  have hob : ¬(c = '{') := char_ne_of_toNat_ne
    (by have h2 : ('{').toNat = 123 := rfl; omega)
  have hmi : ¬(c = '-') := char_ne_of_toNat_ne
    (by have h2 : ('-').toNat = 45 := rfl; omega)
  rw [parseValue, skipWs_cons_of_not_ws hws]
  show (if c = '"' then _ else _) = _
  rw [if_neg hq, if_neg hn, if_neg ht, if_neg hf, if_neg hlb, if_neg hob,
    if_neg hmi, if_pos (show isDigCh c = true by
      simp only [isDigCh, Bool.and_eq_true, decide_eq_true_eq]; omega)]

theorem parseValue_natDigits (fuel m : Nat) {rest : List Char}
    (hrest : numContOk rest = true) :
    parseValue (fuel + 1) (natDigits m ++ rest) =
      some (.num (m : Int), rest) := by
  have hnd := numContOk_noDigitHead hrest
  rcases Nat.eq_zero_or_pos m with h0 | hpos
  · subst h0
    rw [natDigits, dif_pos (by omega), show digitChar10 0 = '0' by decide,
      List.singleton_append, parseValue_digit_head fuel '0' rest (by decide),
      readIntDigits, if_neg (by decide), if_pos rfl]
    show (if numContOk rest then some (JValue.num ((0 : Nat) : Int), rest)
      else none) = _
    rw [if_pos hrest]
  · obtain ⟨c, cs, hh, hdig, _⟩ := natDigits_head m hpos
    rw [hh, List.cons_append,
      parseValue_digit_head fuel c (cs ++ rest) hdig, ← List.cons_append,
      ← hh, readIntDigits_natDigits m hnd]
    show (if numContOk rest then some (JValue.num (m : Int), rest)
      else none) = _
    rw [if_pos hrest]

theorem parseValue_serializeInt (fuel : Nat) (n : Int) {rest : List Char}
    (hrest : numContOk rest = true) :
    parseValue (fuel + 1) (serializeInt n ++ rest) =
      some (.num n, rest) := by
  by_cases hn : n < 0
  · rw [serializeInt, if_pos hn, List.cons_append, parseValue,
      skipWs_cons_of_not_ws (by decide)]
    show (if ('-' : Char) = '"' then _ else _) = _
    rw [if_neg (by decide), if_neg (by decide), if_neg (by decide),
      if_neg (by decide), if_neg (by decide), if_neg (by decide),
      if_pos rfl, readIntDigits_natDigits n.natAbs
        (numContOk_noDigitHead hrest)]
    show (if numContOk rest then
      some (JValue.num (-((n.natAbs : Nat) : Int)), rest) else none) = _
    rw [if_pos hrest]
    simp only [Option.some.injEq, Prod.mk.injEq, JValue.num.injEq, and_true]
    omega
  · rw [serializeInt, if_neg hn, parseValue_natDigits fuel n.toNat hrest]
    simp only [Option.some.injEq, Prod.mk.injEq, JValue.num.injEq, and_true]
    omega

theorem numContOk_cons (d : Char) (xs : List Char) :
    numContOk (d :: xs) = !(isDigCh d || d = '.' || d = 'e' || d = 'E') := rfl

theorem jsize_pos (v : JValue) : 1 ≤ jsize v := by
  cases v <;> rw [jsize] <;> omega

theorem serializeInt_length_pos (n : Int) : 1 ≤ (serializeInt n).length := by
  rw [serializeInt]
  by_cases hn : n < 0
  · rw [if_pos hn]
    simp
  · rw [if_neg hn]
    rcases Nat.eq_zero_or_pos n.toNat with h0 | hpos
    · rw [h0, natDigits, dif_pos (by omega)]
      simp
    · obtain ⟨c, cs, hnd, -, -⟩ := natDigits_head n.toNat hpos
      rw [hnd]
      simp

mutual

theorem jsize_le_serialize : (v : JValue) → jsize v ≤ (serialize v).length
  | .null => by rw [jsize, serialize]; simp
  | .bool true => by rw [jsize, serialize]; simp
  | .bool false => by rw [jsize, serialize]; simp
  | .num n => by rw [jsize, serialize]; exact serializeInt_length_pos n
  | .str s => by rw [jsize, serialize, serializeString]; simp
  | .arr [] => by rw [jsize, jsizeElems, serialize]; simp
  | .arr (e :: es) => by
    rw [jsize, jsizeElems, serialize]
    have h1 := jsize_le_serialize e
    have h2 := jsizeElems_le_serializeElems es
    simp only [List.length_cons, List.length_append, List.length_singleton]
    omega
  | .obj [] => by rw [jsize, jsizeMembers, serialize]; simp
  | .obj (f :: fs) => by
    rw [jsize, jsizeMembers, serialize]
    have h1 := jsize_le_serialize f.2
    have h2 := jsizeMembers_le_serializeMembers fs
    simp only [List.length_cons, List.length_append, List.length_singleton]
    omega

theorem jsizeElems_le_serializeElems :
    (es : List JValue) → jsizeElems es ≤ (serializeElems es).length
  | [] => by rw [jsizeElems, serializeElems]; simp
  | e :: es => by
    rw [jsizeElems, serializeElems]
    have h1 := jsize_le_serialize e
    have h2 := jsizeElems_le_serializeElems es
    simp only [List.length_cons, List.length_append]
    omega

theorem jsizeMembers_le_serializeMembers :
    (fs : List (String × JValue)) →
      jsizeMembers fs ≤ (serializeMembers fs).length
  | [] => by rw [jsizeMembers, serializeMembers]; simp
  | f :: fs => by
    rw [jsizeMembers, serializeMembers]
    have h1 := jsize_le_serialize f.2
    have h2 := jsizeMembers_le_serializeMembers fs
    simp only [List.length_cons, List.length_append]
    omega

end

theorem isDigCh_head_facts {c : Char} (h : isDigCh c = true) :
    isWsChar c = false ∧ ¬(c = ']') ∧ ¬(c = '}') := by
  simp only [isDigCh, Bool.and_eq_true, decide_eq_true_eq] at h
  refine ⟨?_, ?_, ?_⟩
  · simp only [isWsChar, Bool.or_eq_false_iff, decide_eq_false_iff_not]
    refine ⟨⟨⟨?_, ?_⟩, ?_⟩, ?_⟩ <;> omega
  · exact char_ne_of_toNat_ne (by have h2 : (']').toNat = 93 := rfl; omega)
  · exact char_ne_of_toNat_ne (by have h2 : ('}').toNat = 125 := rfl; omega)

theorem serialize_head (v : JValue) :
    ∃ c cs, serialize v = c :: cs ∧ isWsChar c = false ∧ ¬(c = ']') ∧
      ¬(c = '}') := by
  cases v with
  | null => exact ⟨'n', _, by rw [serialize], by decide, by decide, by decide⟩
  | bool b =>
    cases b with
    | true => exact ⟨'t', _, by rw [serialize], by decide, by decide, by decide⟩
    | false =>
      exact ⟨'f', _, by rw [serialize], by decide, by decide, by decide⟩
  | num n =>
    by_cases hn : n < 0
    · exact ⟨'-', _, by rw [serialize, serializeInt, if_pos hn], by decide,
        by decide, by decide⟩
    · have hd : ∃ c cs, natDigits n.toNat = c :: cs ∧ isDigCh c = true := by
        rcases Nat.eq_zero_or_pos n.toNat with h0 | hpos
        · rw [h0, natDigits, dif_pos (by omega)]
          exact ⟨digitChar10 0, [], rfl, isDigCh_digitChar10 (by omega)⟩
        · obtain ⟨c, cs, hnd, hdig, -⟩ := natDigits_head n.toNat hpos
          exact ⟨c, cs, hnd, hdig⟩
      obtain ⟨c, cs, hnd, hdig⟩ := hd
      obtain ⟨hw, hb, hr⟩ := isDigCh_head_facts hdig
      exact ⟨c, cs, by rw [serialize, serializeInt, if_neg hn, hnd], hw, hb, hr⟩
  | str s =>
    exact ⟨'"', escapeChars s.data ++ ['"'],
      by rw [serialize, serializeString, List.cons_append], by decide,
        by decide, by decide⟩
  | arr es =>
    cases es with
    | nil => exact ⟨'[', _, by rw [serialize], by decide, by decide, by decide⟩
    | cons e es =>
      exact ⟨'[', (serialize e ++ serializeElems es) ++ [']'],
        by rw [serialize, List.cons_append], by decide, by decide, by decide⟩
  | obj fs =>
    cases fs with
    | nil => exact ⟨'{', _, by rw [serialize], by decide, by decide, by decide⟩
    | cons f fs =>
      exact ⟨'{',
        (serializeString f.1 ++ ':' :: serialize f.2 ++ serializeMembers fs) ++
          ['}'],
        by rw [serialize, List.cons_append], by decide, by decide, by decide⟩

theorem any_eq_memKey (k : String) :
    ∀ pairs : List (String × JValue),
      pairs.any (fun p => p.1 == k) = memKey k pairs
  | [] => rfl
  | f :: fs => by rw [List.any_cons, memKey, any_eq_memKey k fs]

theorem addField_of_not_mem {pairs : List (String × JValue)} {k : String}
    {v : JValue} (h : memKey k pairs = false) :
    addField pairs k v = pairs ++ [(k, v)] := by
  rw [addField, any_eq_memKey k pairs, h]
  rfl

theorem memKey_append (x : String) :
    ∀ (l1 l2 : List (String × JValue)),
      memKey x (l1 ++ l2) = (memKey x l1 || memKey x l2)
  | [], l2 => by rw [List.nil_append, memKey, Bool.false_or]
  | f :: fs, l2 => by
    rw [List.cons_append, memKey, memKey, memKey_append x fs l2, Bool.or_assoc]

theorem memKey_false_forall {x : String} :
    ∀ {fs : List (String × JValue)}, memKey x fs = false →
      ∀ f ∈ fs, ¬(f.1 = x) := by
  intro fs
  induction fs with
  | nil => intro _ f hf; cases hf
  | cons g gs ih =>
    intro h f hf
    rw [memKey, Bool.or_eq_false_iff] at h
    rcases List.mem_cons.mp hf with rfl | hf2
    · exact beq_eq_false_iff_ne.mp h.1
    · exact ih h.2 f hf2

theorem serializeString_append (k : String) (t : List Char) :
    serializeString k ++ t = '"' :: (escapeChars k.data ++ ('"' :: t)) := by
  rw [serializeString]
  simp [List.cons_append, List.append_assoc]

theorem numContOk_elemsTail (es : List JValue) (t : List Char) :
    numContOk (serializeElems es ++ ']' :: t) = true := by
  cases es with
  | nil => rw [serializeElems, List.nil_append, numContOk_cons]; decide
  | cons e es =>
    rw [serializeElems]
    simp only [List.cons_append, List.append_assoc]
    rw [numContOk_cons]
    decide

theorem numContOk_membersTail (fs : List (String × JValue)) (t : List Char) :
    numContOk (serializeMembers fs ++ '}' :: t) = true := by
  cases fs with
  | nil => rw [serializeMembers, List.nil_append, numContOk_cons]; decide
  | cons f fs =>
    rw [serializeMembers]
    simp only [List.cons_append, List.append_assoc]
    rw [numContOk_cons]
    decide

theorem parseValue_serialize_aux : ∀ fuel : Nat,
    (∀ (v : JValue) (t : List Char), jsize v ≤ fuel → nodupKeys v = true →
      numContOk t = true →
      parseValue fuel (serialize v ++ t) = some (v, t)) ∧
    (∀ (e : JValue) (es : List JValue) (acc : List JValue) (t : List Char),
      jsize e + jsizeElems es + 1 ≤ fuel → nodupKeys e = true →
      nodupKeysElems es = true → numContOk t = true →
      parseElems fuel acc (serialize e ++ (serializeElems es ++ ']' :: t)) =
        some (.arr (acc ++ e :: es), t)) ∧
    (∀ (k : String) (v : JValue) (fs : List (String × JValue))
      (acc : List (String × JValue)) (t : List Char),
      jsize v + jsizeMembers fs + 1 ≤ fuel → nodupKeys v = true →
      memKey k fs = false → nodupKeysMembers fs = true →
      (∀ g ∈ (k, v) :: fs, memKey g.1 acc = false) → numContOk t = true →
      parseMembers fuel acc
          (serializeString k ++
            (':' :: (serialize v ++ (serializeMembers fs ++ '}' :: t)))) =
        some (.obj (acc ++ (k, v) :: fs), t)) := by
  intro fuel
  induction fuel with
  | zero =>
    refine ⟨?_, ?_, ?_⟩
    · intro v t hsz _ _
      exact absurd hsz (by have := jsize_pos v; omega)
    · intro e es acc t hsz _ _ _
      exact absurd hsz (by omega)
    · intro k v fs acc t hsz _ _ _ _ _
      exact absurd hsz (by omega)
  | succ fuel ih =>
    obtain ⟨ihP, ihQ, ihR⟩ := ih
    refine ⟨?_, ?_, ?_⟩
    · -- values
      intro v t hsz hnd hct
      cases v with
      | null =>
        rw [serialize]
        simp only [List.cons_append, List.nil_append]
        rfl
      | bool b =>
        cases b with
        | true =>
          rw [serialize]
          simp only [List.cons_append, List.nil_append]
          rfl
        | false =>
          rw [serialize]
          simp only [List.cons_append, List.nil_append]
          rfl
      | num n =>
        rw [serialize]
        exact parseValue_serializeInt fuel n hct
      | str s =>
        rw [serialize, serializeString_append, parseValue,
          skipWs_cons_of_not_ws (by decide)]
        show (if ('"' : Char) = '"' then _ else _) = _
        rw [if_pos rfl, parseStringBody_escapeChars]
        rfl
      | arr es =>
        cases es with
        | nil =>
          rw [serialize]
          simp only [List.cons_append, List.nil_append]
          rfl
        | cons e es =>
          rw [serialize]
          rw [jsize, jsizeElems] at hsz
          rw [nodupKeys, nodupKeysElems, Bool.and_eq_true] at hnd
          simp only [List.cons_append, List.append_assoc, List.nil_append]
          obtain ⟨c0, cs0, hse, hw0, hb0, -⟩ := serialize_head e
          rw [hse]
          simp only [List.cons_append]
          rw [parseValue, skipWs_cons_of_not_ws (by decide)]
          show (if ('[' : Char) = '"' then _ else _) = _
          rw [if_neg (by decide), if_neg (by decide), if_neg (by decide),
            if_neg (by decide), if_pos rfl]
          show (match skipWs (c0 :: (cs0 ++ (serializeElems es ++ ']' :: t)))
                with
                | d :: rest1 =>
                  if d = ']' then some (JValue.arr [], rest1)
                  else parseElems fuel []
                    (c0 :: (cs0 ++ (serializeElems es ++ ']' :: t)))
                | [] => parseElems fuel []
                    (c0 :: (cs0 ++ (serializeElems es ++ ']' :: t)))) = _
          rw [skipWs_cons_of_not_ws hw0]
          show (if c0 = ']' then
              some (JValue.arr [], cs0 ++ (serializeElems es ++ ']' :: t))
            else parseElems fuel []
              (c0 :: (cs0 ++ (serializeElems es ++ ']' :: t)))) = _
          rw [if_neg hb0, ← List.cons_append, ← hse,
            ihQ e es [] t (by have := jsize_pos e; omega) hnd.1 hnd.2 hct]
          rw [List.nil_append]
      | obj fs =>
        cases fs with
        | nil =>
          rw [serialize]
          simp only [List.cons_append, List.nil_append]
          rfl
        | cons f fs =>
          rw [serialize]
          rw [jsize, jsizeMembers] at hsz
          rw [nodupKeys, nodupKeysMembers, Bool.and_eq_true,
            Bool.and_eq_true] at hnd
          simp only [List.cons_append, List.append_assoc, List.nil_append]
          rw [serializeString_append, parseValue,
            skipWs_cons_of_not_ws (by decide)]
          show (if ('{' : Char) = '"' then _ else _) = _
          rw [if_neg (by decide), if_neg (by decide), if_neg (by decide),
            if_neg (by decide), if_neg (by decide), if_pos rfl]
          show parseMembers fuel []
              ('"' :: (escapeChars f.1.data ++ ('"' :: (':' ::
                (serialize f.2 ++ (serializeMembers fs ++ '}' :: t)))))) = _
          rw [← serializeString_append,
            ihR f.1 f.2 fs [] t (by have := jsize_pos f.2; omega)
              hnd.1.2 (by simpa using hnd.1.1) hnd.2
              (fun g _ => rfl) hct]
          simp [Prod.mk.eta]
    · -- array elements
      intro e es acc t hsz hnde hndes hct
      cases es with
      | nil =>
        rw [serializeElems, List.nil_append, parseElems,
          ihP e (']' :: t) (by omega) hnde (by rw [numContOk_cons]; decide)]
        rfl
      | cons e2 es2 =>
        rw [jsizeElems] at hsz
        rw [nodupKeysElems, Bool.and_eq_true] at hndes
        rw [serializeElems]
        simp only [List.cons_append, List.append_assoc]
        rw [parseElems,
          ihP e (',' :: (serialize e2 ++ (serializeElems es2 ++ ']' :: t)))
            (by omega) hnde (by rw [numContOk_cons]; decide)]
        show parseElems fuel (acc ++ [e])
            (serialize e2 ++ (serializeElems es2 ++ ']' :: t)) = _
        rw [ihQ e2 es2 (acc ++ [e]) t (by have := jsize_pos e2; omega)
          hndes.1 hndes.2 hct]
        simp [List.append_assoc]
    · -- object members
      intro k v fs acc t hsz hndv hmk hndfs hdisj hct
      have hka : memKey k acc = false := hdisj (k, v) (List.mem_cons_self _ _)
      rw [serializeString_append, parseMembers,
        skipWs_cons_of_not_ws (by decide)]
      show (if ('"' : Char) = '"' then _ else _) = _
      rw [if_pos rfl, parseStringBody_escapeChars]
      show (match parseValue fuel
              (serialize v ++ (serializeMembers fs ++ '}' :: t)) with
            | none => none
            | some (v2, rest3) =>
              match skipWs rest3 with
              | d2 :: rest4 =>
                if d2 = ',' then parseMembers fuel (addField acc k v2) rest4
                else if d2 = '}' then
                  some (JValue.obj (addField acc k v2), rest4)
                else none
              | [] => none) = _
      rw [ihP v (serializeMembers fs ++ '}' :: t) (by omega) hndv
        (numContOk_membersTail fs t)]
      show (match skipWs (serializeMembers fs ++ '}' :: t) with
            | d2 :: rest4 =>
              if d2 = ',' then parseMembers fuel (addField acc k v) rest4
              else if d2 = '}' then some (JValue.obj (addField acc k v), rest4)
              else none
            | [] => none) = _
      cases fs with
      | nil =>
        rw [serializeMembers, List.nil_append,
          skipWs_cons_of_not_ws (by decide), addField_of_not_mem hka]
        rfl
      | cons f2 fs2 =>
        rw [jsizeMembers] at hsz
        rw [nodupKeysMembers, Bool.and_eq_true, Bool.and_eq_true] at hndfs
        have hf2mem : memKey f2.1 fs2 = false := by simpa using hndfs.1.1
        have hdisj2 : ∀ g ∈ (f2.1, f2.2) :: fs2,
            memKey g.1 (acc ++ [(k, v)]) = false := by
          intro g hg
          rw [memKey_append]
          have hga : memKey g.1 acc = false :=
            hdisj g (List.mem_cons_of_mem _ hg)
          have hgk : ¬(g.1 = k) := memKey_false_forall hmk g hg
          rw [hga, memKey, memKey,
            beq_eq_false_iff_ne.mpr (fun he => hgk he.symm)]
          rfl
        rw [serializeMembers]
        simp only [List.cons_append, List.append_assoc]
        rw [skipWs_cons_of_not_ws (by decide)]
        show (if (',' : Char) = ',' then _ else _) = _
        rw [if_pos rfl, addField_of_not_mem hka,
          ihR f2.1 f2.2 fs2 (acc ++ [(k, v)]) t
            (by have := jsize_pos f2.2; omega) hndfs.1.2 hf2mem hndfs.2
            hdisj2 hct]
        simp [List.append_assoc, Prod.mk.eta]

theorem format_execution_result_default (er : Option ExecutionResult) :
    format_execution_result er none = .ok ⟨formatBodyDefault er, 200⟩ := by
  cases er with
  | none => rfl
  | some r =>
    by_cases h : r.errors.isEmpty <;>
      simp [format_execution_result, formatBodyDefault, h]

theorem listMapExc_ok_length {A B E : Type} {f : A → Except E B} :
    ∀ {l : List A} {ys : List B}, listMapExc f l = .ok ys →
      ys.length = l.length := by
  intro l
  induction l with
  | nil => intro ys h; cases h; rfl
  | cons a as ih =>
    intro ys h
    rw [listMapExc] at h
    cases hf : f a with
    | error e => rw [hf] at h; cases h
    | ok b =>
      rw [hf] at h
      cases hrest : listMapExc f as with
      | error e => rw [hrest] at h; cases h
      | ok bs => rw [hrest] at h; cases h; simp [ih hrest]

theorem listMapExc_ok_getD {A B E : Type} {f : A → Except E B} :
    ∀ {l : List A} {ys : List B}, listMapExc f l = .ok ys →
      ∀ (i : Nat) (a : A) (d : B), l[i]? = some a → f a = .ok (ys.getD i d) := by
  intro l
  induction l with
  | nil => intro ys _ i a d hi; cases hi
  | cons x as ih =>
    intro ys h i a d hi
    rw [listMapExc] at h
    cases hf : f x with
    | error e => rw [hf] at h; cases h
    | ok b =>
      rw [hf] at h
      cases hrest : listMapExc f as with
      | error e => rw [hrest] at h; cases h
      | ok bs =>
        rw [hrest] at h
        cases h
        cases i with
        | zero =>
          simp only [List.getElem?_cons_zero, Option.some.injEq] at hi
          subst hi
          exact hf
        | succ j =>
          simp only [List.getElem?_cons_succ] at hi
          simpa [List.getD] using ih hrest j a d hi

theorem listMapExc_map_ok {A B E : Type} (f : A → Except E B) (g : A → B) :
    ∀ (l : List A), (∀ a ∈ l, f a = .ok (g a)) →
      listMapExc f l = .ok (l.map g) := by
  intro l
  induction l with
  | nil => intro _; rfl
  | cons a as ih =>
    intro h
    rw [listMapExc, h a (List.mem_cons_self a as),
      ih (fun x hx => h x (List.mem_cons_of_mem a hx))]
    rfl

theorem get_response_catch_http {Doc Schema : Type} (E : Engine Doc Schema)
    (schema : Schema) (params : GraphQLParams) (allow_only_query : Bool) :
    get_response E schema params .httpQueryError allow_only_query =
      .ok (okOrNone (execute_graphql_request E schema params
        allow_only_query)) := by
  rw [get_response]
  cases execute_graphql_request E schema params allow_only_query <;> rfl

theorem get_response_skip {Doc Schema : Type} (E : Engine Doc Schema)
    (schema : Schema) (params : GraphQLParams) (allow_only_query : Bool) :
    get_response E schema params .skipException allow_only_query =
      (execute_graphql_request E schema params allow_only_query).map some := by
  rw [get_response]
  cases execute_graphql_request E schema params allow_only_query <;> rfl

theorem listMapExc_skip_eq_firstExecError {Doc Schema : Type}
    (E : Engine Doc Schema) (schema : Schema) (allow_only_query : Bool) :
    ∀ ps : List GraphQLParams,
      listMapExc (fun p => get_response E schema p .skipException
        allow_only_query) ps =
      (match firstExecError E schema allow_only_query ps with
       | some e => .error e
       | none => .ok (ps.map (fun p =>
           okOrNone (execute_graphql_request E schema p allow_only_query)))) := by
  intro ps
  induction ps with
  | nil => rfl
  | cons p rest ih =>
    rw [listMapExc, get_response_skip, firstExecError]
    cases hE : execute_graphql_request E schema p allow_only_query with
    | error e => rfl
    | ok r =>
      rw [ih]
      cases firstExecError E schema allow_only_query rest <;>
        simp [Except.map, okOrNone, hE]

/-- Evaluation of `run_http_query` on a batch request with batching enabled
and a supported method: extraction of every item's parameters (with empty
fallback data) followed by one `get_response` per tuple, each step
propagating the first exception. -/
theorem run_http_query_batch_eval {Doc Schema : Type} (E : Engine Doc Schema)
    (schema : Schema) (request_method : String)
    (hm : request_method = "get" ∨ request_method = "post")
    (l : List RequestItem) (hl : l ≠ []) (query_data : Option RequestItem)
    (catchErrors : Bool) :
    run_http_query E schema request_method (.list l) query_data true
        catchErrors =
      (match listMapExc (fun entry => get_graphql_params entry {}) l with
       | .error e => .error e
       | .ok all_params =>
         match listMapExc (fun params => get_response E schema params
             (if catchErrors then .httpQueryError else .skipException)
             (request_method == "get")) all_params with
         | .error e => .error e
         | .ok responses => .ok (responses, all_params)) := by
  cases l with
  | nil => exact absurd rfl hl
  | cons a as => rcases hm with h | h <;> subst h <;> rfl

theorem run_http_query_batch_eval_catch {Doc Schema : Type}
    (E : Engine Doc Schema) (schema : Schema) (request_method : String)
    (hm : request_method = "get" ∨ request_method = "post")
    (l : List RequestItem) (hl : l ≠ []) (query_data : Option RequestItem) :
    run_http_query E schema request_method (.list l) query_data true true =
      (match listMapExc (fun entry => get_graphql_params entry {}) l with
       | .error e => .error e
       | .ok all_params =>
         match listMapExc (fun params => get_response E schema params
             CatchClass.httpQueryError (request_method == "get")) all_params with
         | .error e => .error e
         | .ok responses => .ok (responses, all_params)) :=
  run_http_query_batch_eval E schema request_method hm l hl query_data true

theorem run_http_query_batch_eval_noCatch {Doc Schema : Type}
    (E : Engine Doc Schema) (schema : Schema) (request_method : String)
    (hm : request_method = "get" ∨ request_method = "post")
    (l : List RequestItem) (hl : l ≠ []) (query_data : Option RequestItem) :
    run_http_query E schema request_method (.list l) query_data true false =
      (match listMapExc (fun entry => get_graphql_params entry {}) l with
       | .error e => .error e
       | .ok all_params =>
         match listMapExc (fun params => get_response E schema params
             CatchClass.skipException (request_method == "get")) all_params with
         | .error e => .error e
         | .ok responses => .ok (responses, all_params)) :=
  run_http_query_batch_eval E schema request_method hm l hl query_data false

theorem getElemQ_of_lt {α : Type} :
    ∀ (xs : List α) (i : Nat) (d : α), i < xs.length →
      xs[i]? = some (xs.getD i d) := by
  intro xs
  induction xs with
  | nil => intro i d h; cases h
  | cons x rest ih =>
    intro i d h
    cases i with
    | zero => simp [List.getD]
    | succ j =>
      simp only [List.getElem?_cons_succ, List.getD]
      simpa [List.getD] using ih j d (Nat.lt_of_succ_lt_succ h)

theorem lt_of_getElemQ {α : Type} :
    ∀ {xs : List α} {i : Nat} {a : α}, xs[i]? = some a → i < xs.length := by
  intro xs
  induction xs with
  | nil => intro i a h; cases h
  | cons x rest ih =>
    intro i a h
    cases i with
    | zero => exact Nat.succ_pos _
    | succ j =>
      simp only [List.getElem?_cons_succ] at h
      exact Nat.succ_lt_succ (ih h)

theorem foldl_nat_max_eq {m : Nat} :
    ∀ (ns : List Nat), (∀ n ∈ ns, n = m) → ns.foldl Nat.max m = m := by
  intro ns
  induction ns with
  | nil => intro _; rfl
  | cons n rest ih =>
    intro h
    rw [List.foldl_cons, h n (List.mem_cons_self n rest),
      show Nat.max m m = m by simp]
    exact ih (fun x hx => h x (List.mem_cons_of_mem n hx))

/-- Claim C2 (amended): with containment on, every structural error raised
during an item's execution is caught in that item's slot (`none`) while
every other item is still executed; with containment off, the first
execution error aborts the whole batch.  Parameter-extraction errors are
outside this guarantee (see the counterexample). -/
theorem claim_C2_execution_errors_contained_per_item {Doc Schema : Type}
    (E : Engine Doc Schema) (schema : Schema) (request_method : String)
    (hm : request_method = "get" ∨ request_method = "post")
    (l : List RequestItem) (hl : l ≠ []) (query_data : Option RequestItem)
    (ps : List GraphQLParams)
    (hext : listMapExc (fun entry => get_graphql_params entry {}) l = .ok ps) :
    run_http_query E schema request_method (.list l) query_data true true =
      .ok (ps.map (fun p => okOrNone (execute_graphql_request E schema p
        (request_method == "get"))), ps) ∧
    run_http_query E schema request_method (.list l) query_data true false =
      (match firstExecError E schema (request_method == "get") ps with
       | some e => .error e
       | none => .ok (ps.map (fun p => okOrNone (execute_graphql_request E
           schema p (request_method == "get"))), ps)) := by
  constructor
  · rw [run_http_query_batch_eval_catch E schema request_method hm l hl
      query_data, hext]
    show (match listMapExc (fun params => get_response E schema params
            CatchClass.httpQueryError (request_method == "get")) ps with
          | Except.error e => Except.error e
          | Except.ok responses => Except.ok (responses, ps)) = _
    rw [listMapExc_map_ok
      (fun params => get_response E schema params CatchClass.httpQueryError
        (request_method == "get"))
      (fun p => okOrNone (execute_graphql_request E schema p
        (request_method == "get")))
      ps
      (fun p _ => get_response_catch_http E schema p (request_method == "get"))]
  · rw [run_http_query_batch_eval_noCatch E schema request_method hm l hl
      query_data, hext]
    show (match listMapExc (fun params => get_response E schema params
            CatchClass.skipException (request_method == "get")) ps with
          | Except.error e => Except.error e
          | Except.ok responses => Except.ok (responses, ps)) = _
    rw [listMapExc_skip_eq_firstExecError E schema (request_method == "get") ps]
    cases firstExecError E schema (request_method == "get") ps <;> rfl

/-- Claim C2 counterexample: with containment on (`catch=True`), the
per-item `HttpQueryError` raised while decoding the second item's invalid
variables JSON is not caught into that item's slot — it propagates out of
`run_http_query` and aborts the whole batch, because parameter extraction
happens outside the per-item catch. -/
theorem claim_C2_counterexample :
    run_http_query (testEngine (.ok ()) none) () "post"
        (.list [⟨some "query A", none, none⟩,
                ⟨some "query B", some (.str "[1"), none⟩])
        none true true =
      .error ⟨400, "Variables are invalid JSON.", none⟩ := rfl

/-- Claim C2 witness: the amended theorem applied to a two-item batch whose
second item lacks a query, so its execution raises; with containment the
slot is `none` and the first item is still executed, without containment
the batch aborts with that error. -/
theorem claim_C2_witness :
    listMapExc (fun entry => get_graphql_params entry {})
        [⟨some "query A", none, none⟩, ⟨none, none, none⟩] =
      .ok [⟨some "query A", none, none⟩, ⟨none, none, none⟩] ∧
    run_http_query (testEngine (.ok ()) none) () "post"
        (.list [⟨some "query A", none, none⟩, ⟨none, none, none⟩])
        none true true =
      .ok ([some ⟨some (.obj [("ok", .bool true)]), []⟩, none],
           [⟨some "query A", none, none⟩, ⟨none, none, none⟩]) ∧
    run_http_query (testEngine (.ok ()) none) () "post"
        (.list [⟨some "query A", none, none⟩, ⟨none, none, none⟩])
        none true false =
      .error ⟨400, "Must provide query string.", none⟩ := by
  have h := claim_C2_execution_errors_contained_per_item
    (testEngine (.ok ()) none) () "post" (Or.inr rfl)
    [⟨some "query A", none, none⟩, ⟨none, none, none⟩]
    (List.cons_ne_nil _ _) none
    [⟨some "query A", none, none⟩, ⟨none, none, none⟩] rfl
  exact ⟨rfl, h.1, h.2⟩

/-- Claim C3: on a batch of N items that passes the structural checks,
whenever `run_http_query` returns, it returns exactly N outcomes and N
parameter tuples, the i-th parameter tuple is extracted from the i-th item
and the i-th outcome is that tuple's response, and encoding the outcomes
preserves that order in the response array. -/
theorem claim_C3_batch_order_preserved {Doc Schema : Type}
    (E : Engine Doc Schema) (schema : Schema) (request_method : String)
    (hm : request_method = "get" ∨ request_method = "post")
    (l : List RequestItem) (hl : l ≠ []) (query_data : Option RequestItem)
    (catchErrors : Bool) (rs : List (Option ExecutionResult))
    (ps : List GraphQLParams)
    (hrun : run_http_query E schema request_method (.list l) query_data true
      catchErrors = .ok (rs, ps)) :
    rs.length = l.length ∧ ps.length = l.length ∧
    (∀ (i : Nat) (a : RequestItem), l[i]? = some a →
      get_graphql_params a {} = .ok (ps.getD i ⟨none, none, none⟩) ∧
      get_response E schema (ps.getD i ⟨none, none, none⟩)
        (if catchErrors then .httpQueryError else .skipException)
        (request_method == "get") = .ok (rs.getD i none)) ∧
    encode_execution_results rs none true id =
      .ok (.arr (rs.map formatBodyDefault), 200) := by
  rw [run_http_query_batch_eval E schema request_method hm l hl query_data
    catchErrors] at hrun
  split at hrun
  · simp at hrun
  · rename_i all_params h1
    split at hrun
    · simp at hrun
    · rename_i responses h2
      rw [Except.ok.injEq, Prod.mk.injEq] at hrun
      obtain ⟨hr, hp⟩ := hrun
      subst hr
      subst hp
      have hlen2 : responses.length = all_params.length := listMapExc_ok_length h2
      have hlen1 : all_params.length = l.length := listMapExc_ok_length h1
      refine ⟨hlen2.trans hlen1, hlen1, ?_, ?_⟩
      · intro i a hi
        have hip : i < all_params.length := hlen1 ▸ lt_of_getElemQ hi
        refine ⟨?_, ?_⟩
        · have := listMapExc_ok_getD h1 i a ⟨none, none, none⟩ hi
          exact this
        · exact listMapExc_ok_getD h2 i (all_params.getD i ⟨none, none, none⟩)
            none (getElemQ_of_lt all_params i ⟨none, none, none⟩ hip)
      · have hfmt : listMapExc (fun er => format_execution_result er none)
            responses =
            .ok (responses.map (fun er =>
              (⟨formatBodyDefault er, 200⟩ : GraphQLResponse))) :=
          listMapExc_map_ok (fun er => format_execution_result er none)
            (fun er => (⟨formatBodyDefault er, 200⟩ : GraphQLResponse)) responses
            (fun a _ => format_execution_result_default a)
        rw [encode_execution_results, hfmt]
        cases hrs : responses with
        | nil =>
          exfalso
          apply hl
          have hh := hlen2.trans hlen1
          rw [hrs] at hh
          exact List.length_eq_zero.mp hh.symm
        | cons r0 rest =>
          simp only [List.map_cons]
          have hstat : ((rest.map (fun er =>
              (⟨formatBodyDefault er, 200⟩ : GraphQLResponse))).map
                GraphQLResponse.status_code).foldl Nat.max 200 = 200 := by
            refine foldl_nat_max_eq _ (fun n hn => ?_)
            simp only [List.map_map, List.mem_map] at hn
            obtain ⟨er, _, hval⟩ := hn
            exact hval.symm
          simp only [List.map_map] at hstat
          simp [hstat, List.map_map, Function.comp]

/-- Claim C3 witness: the theorem applied to a two-item batch, instantiating
the pointwise correspondence at index 1. -/
theorem claim_C3_witness :
    run_http_query (testEngine (.ok ()) none) () "post"
        (.list [⟨some "query A", none, none⟩, ⟨some "query B", none, none⟩])
        none true false =
      .ok ([some ⟨some (.obj [("ok", .bool true)]), []⟩,
            some ⟨some (.obj [("ok", .bool true)]), []⟩],
           [⟨some "query A", none, none⟩, ⟨some "query B", none, none⟩]) ∧
    ([some ⟨some (.obj [("ok", .bool true)]), []⟩,
      some ⟨some (.obj [("ok", .bool true)]), []⟩] :
        List (Option ExecutionResult)).length =
      ([⟨some "query A", none, none⟩, ⟨some "query B", none, none⟩] :
        List RequestItem).length ∧
    ([⟨some "query A", none, none⟩, ⟨some "query B", none, none⟩] :
        List GraphQLParams).length =
      ([⟨some "query A", none, none⟩, ⟨some "query B", none, none⟩] :
        List RequestItem).length ∧
    (get_graphql_params ⟨some "query B", none, none⟩ {} =
        .ok ⟨some "query B", none, none⟩ ∧
      get_response (testEngine (.ok ()) none) () ⟨some "query B", none, none⟩
          .skipException ("post" == "get") =
        .ok (some ⟨some (.obj [("ok", .bool true)]), []⟩)) ∧
    encode_execution_results
        [some ⟨some (.obj [("ok", .bool true)]), []⟩,
         some ⟨some (.obj [("ok", .bool true)]), []⟩] none true id =
      .ok (.arr ([some ⟨some (.obj [("ok", .bool true)]), []⟩,
        some ⟨some (.obj [("ok", .bool true)]), []⟩].map formatBodyDefault),
        200) := by
  have h := claim_C3_batch_order_preserved (testEngine (.ok ()) none) ()
    "post" (Or.inr rfl)
    [⟨some "query A", none, none⟩, ⟨some "query B", none, none⟩]
    (List.cons_ne_nil _ _) none false
    [some ⟨some (.obj [("ok", .bool true)]), []⟩,
     some ⟨some (.obj [("ok", .bool true)]), []⟩]
    [⟨some "query A", none, none⟩, ⟨some "query B", none, none⟩] rfl
  exact ⟨rfl, h.1, h.2.1, h.2.2.1 1 ⟨some "query B", none, none⟩ rfl, h.2.2.2⟩

/-- Claim C1: the claim says `format_execution_result` applies a
caller-supplied error formatter to each error; in the code the local
`format_errors` is only bound when `format_error` is falsy, so a supplied
formatter together with a non-empty errors list raises `NameError` instead
(the errors body is never built with the supplied formatter), while the
no-errors branch still returns `{data: data}`. -/
theorem claim_C1_supplied_formatter_raises_NameError :
    format_execution_result (some ⟨none, [⟨"boom"⟩]⟩)
        (some (fun e => .obj [("message", .str e.message)])) =
      .error (.nameError "format_errors") ∧
    format_execution_result (some ⟨some (.obj [("hello", .str "world")]), []⟩)
        (some (fun e => .obj [("message", .str e.message)])) =
      .ok ⟨.obj [("data", .obj [("hello", .str "world")])], 200⟩ :=
  ⟨rfl, rfl⟩

/-- Claim C4: the claim's status/shape contract for
`encode_execution_results` holds on the paths that return, but the same
unbound-local slip as in C1 makes the function raise `NameError` for any
outcome carrying errors once a formatter is supplied, so the claim's
universally quantified statement fails; with no formatter the maximum
status, the batch array shape and the single-body unwrapping behave as
claimed. -/
theorem claim_C4_encode_raises_NameError_with_formatter :
    encode_execution_results [some ⟨none, [⟨"boom"⟩]⟩]
        (some (fun e => .str e.message)) false id =
      .error (.nameError "format_errors") ∧
    encode_execution_results [some ⟨some .null, []⟩, none] none true id =
      .ok (.arr [.obj [("data", .null)], .null], 200) ∧
    encode_execution_results [some ⟨some .null, []⟩] none false id =
      .ok (.obj [("data", .null)], 200) :=
  ⟨rfl, rfl, rfl⟩

/-- Claim C5: a request item whose query is absent or empty makes
`execute_graphql_request` raise `HttpQueryError(400, "Must provide query
string.")`; the result does not depend on the engine (it is reached before
any engine call) and is never an `Executed` outcome. -/
theorem claim_C5_empty_query_structural_error {Doc Schema : Type}
    (E : Engine Doc Schema) (schema : Schema) (params : GraphQLParams)
    (allow_only_query : Bool) (h : truthyStr params.query = false) :
    execute_graphql_request E schema params allow_only_query =
      .error ⟨400, "Must provide query string.", none⟩ := by
  simp [execute_graphql_request, h]

/-- Claim C5 witness: the theorem applied to a request with an absent
query. -/
theorem claim_C5_witness :
    truthyStr (none : Option String) = false ∧
    execute_graphql_request (testEngine (.ok ()) none) () ⟨none, none, none⟩
        true = .error ⟨400, "Must provide query string.", none⟩ :=
  ⟨rfl, claim_C5_empty_query_structural_error _ _ _ _ rfl⟩

/-- Claim C6: when the engine's parse step fails, `execute_graphql_request`
raises no structural error but returns `ExecutionResult(data=None,
errors=[e])` with the single wrapped parse error, and formatting that
outcome yields HTTP status 200. -/
theorem claim_C6_parse_failure_is_graphql_level {Doc Schema : Type}
    (E : Engine Doc Schema) (schema : Schema) (params : GraphQLParams)
    (allow_only_query : Bool) (hq : truthyStr params.query = true)
    (hp : parseFailed (E.parse (params.query.getD "")) = true) :
    execute_graphql_request E schema params allow_only_query =
      .ok ⟨none, [wrapParseError (E.parse (params.query.getD ""))]⟩ ∧
    format_execution_result
        (some ⟨none, [wrapParseError (E.parse (params.query.getD ""))]⟩) none =
      .ok ⟨.obj [("errors",
          .arr [format_error_default
            (wrapParseError (E.parse (params.query.getD "")))])], 200⟩ := by
  constructor
  · rw [execute_graphql_request]
    rw [hq]
    cases hE : E.parse (params.query.getD "") with
    | ok document => rw [hE] at hp; simp [parseFailed] at hp
    | graphqlError e => simp [wrapParseError, hE]
    | otherError msg => simp [wrapParseError, hE]
  · rfl

/-- Claim C6 witness: the theorem applied to an engine whose parse raises a
`GraphQLError`. -/
theorem claim_C6_witness :
    truthyStr (some "query Q") = true ∧
    parseFailed ((testEngine (.graphqlError ⟨"Syntax Error"⟩) none).parse
      ((some "query Q").getD "")) = true ∧
    execute_graphql_request (testEngine (.graphqlError ⟨"Syntax Error"⟩) none)
        () ⟨some "query Q", none, none⟩ false =
      .ok ⟨none, [⟨"Syntax Error"⟩]⟩ ∧
    format_execution_result (some ⟨none, [⟨"Syntax Error"⟩]⟩) none =
      .ok ⟨.obj [("errors",
        .arr [.obj [("message", .str "Syntax Error")]])], 200⟩ := by
  refine ⟨rfl, rfl, ?_⟩
  exact claim_C6_parse_failure_is_graphql_level
    (testEngine (.graphqlError ⟨"Syntax Error"⟩) none) ()
    ⟨some "query Q", none, none⟩ false rfl rfl

/-- Claim C7: a parseable document whose resolved operation is a mutation or
subscription is rejected under the read-only restriction with
`HttpQueryError(405, "Can only perform a <op> operation from a POST
request.")` and an `Allow: POST` header, while the same document without the
restriction proceeds to validation and execution. -/
theorem claim_C7_mutation_on_get_rejected {Doc Schema : Type}
    (E : Engine Doc Schema) (schema : Schema) (params : GraphQLParams)
    (document : Doc) (ast : OperationAst)
    (hq : truthyStr params.query = true)
    (hp : E.parse (params.query.getD "") = .ok document)
    (hast : E.get_operation_ast document params.operation_name = some ast)
    (hop : ast.operation.value = "mutation" ∨
      ast.operation.value = "subscription") :
    execute_graphql_request E schema params true =
      .error ⟨405, "Can only perform a " ++ ast.operation.value ++
        " operation from a POST request.", some [("Allow", "POST")]⟩ ∧
    execute_graphql_request E schema params false =
      .ok (validate_and_execute E schema document params) := by
  constructor
  · rw [execute_graphql_request, hq]
    simp only [Bool.not_true, Bool.false_eq_true, if_false, hp, hast]
    rcases hop with h | h <;> rw [h] <;> rfl
  · rw [execute_graphql_request, hq]
    simp only [Bool.not_true, Bool.false_eq_true, if_false, hp]

/-- Claim C7 witness: the theorem applied to an engine resolving a mutation
operation. -/
theorem claim_C7_witness :
    execute_graphql_request (testEngine (.ok ()) (some ⟨⟨"mutation"⟩⟩)) ()
        ⟨some "mutation M", none, none⟩ true =
      .error ⟨405,
        "Can only perform a mutation operation from a POST request.",
        some [("Allow", "POST")]⟩ ∧
    execute_graphql_request (testEngine (.ok ()) (some ⟨⟨"mutation"⟩⟩)) ()
        ⟨some "mutation M", none, none⟩ false =
      .ok (validate_and_execute (testEngine (.ok ()) (some ⟨⟨"mutation"⟩⟩)) ()
        () ⟨some "mutation M", none, none⟩) :=
  claim_C7_mutation_on_get_rejected _ () _ () ⟨⟨"mutation"⟩⟩ rfl rfl rfl
    (Or.inl rfl)

/-- Claim C10: when the engine's `get_operation_ast` resolves no operation,
the read-only restriction does not fire: `execute_graphql_request` under
`allow_only_query` proceeds to validation and execution, the same as
without the restriction. -/
theorem claim_C10_no_operation_ast_skips_restriction {Doc Schema : Type}
    (E : Engine Doc Schema) (schema : Schema) (params : GraphQLParams)
    (document : Doc) (hq : truthyStr params.query = true)
    (hp : E.parse (params.query.getD "") = .ok document)
    (hast : E.get_operation_ast document params.operation_name = none) :
    execute_graphql_request E schema params true =
      .ok (validate_and_execute E schema document params) ∧
    execute_graphql_request E schema params true =
      execute_graphql_request E schema params false := by
  have h1 : execute_graphql_request E schema params true =
      .ok (validate_and_execute E schema document params) := by
    rw [execute_graphql_request, hq]
    simp only [Bool.not_true, Bool.false_eq_true, if_false, hp, hast, ite_self]
  have h2 : execute_graphql_request E schema params false =
      .ok (validate_and_execute E schema document params) := by
    rw [execute_graphql_request, hq]
    simp only [Bool.not_true, Bool.false_eq_true, if_false, hp, ite_self]
  exact ⟨h1, h1.trans h2.symm⟩

/-- Claim C10 witness: the theorem applied to an engine that resolves no
operation for the requested name. -/
theorem claim_C10_witness :
    execute_graphql_request (testEngine (.ok ()) none) ()
        ⟨some "query Q", none, some "Missing"⟩ true =
      .ok (validate_and_execute (testEngine (.ok ()) none) () ()
        ⟨some "query Q", none, some "Missing"⟩) ∧
    execute_graphql_request (testEngine (.ok ()) none) ()
        ⟨some "query Q", none, some "Missing"⟩ true =
      execute_graphql_request (testEngine (.ok ()) none) ()
        ⟨some "query Q", none, some "Missing"⟩ false :=
  claim_C10_no_operation_ast_skips_restriction _ () _ () rfl rfl rfl

/-- Claim C9: any method string other than the exact lowercase `"get"` and
`"post"` — including the uppercase forms — makes `run_http_query` raise
`HttpQueryError(405)` with an `Allow` header, whatever the payload and
options (the data is never inspected). -/
theorem claim_C9_only_lowercase_get_post {Doc Schema : Type}
    (E : Engine Doc Schema) (schema : Schema) (request_method : String)
    (data : PyData) (query_data : Option RequestItem)
    (batch_enabled catchErrors : Bool)
    (h : request_method ≠ "get" ∧ request_method ≠ "post") :
    run_http_query E schema request_method data query_data batch_enabled
        catchErrors =
      .error ⟨405, "GraphQL only supports GET and POST requests.",
        some [("Allow", "GET, POST")]⟩ := by
  have h1 : (request_method == "get") = false := beq_eq_false_iff_ne.mpr h.1
  have h2 : (request_method == "post") = false := beq_eq_false_iff_ne.mpr h.2
  simp [run_http_query, h1, h2]

/-- Claim C9 witness: the theorem applied to the uppercase method `"GET"`
with a non-mapping payload. -/
theorem claim_C9_witness :
    ("GET" : String) ≠ "get" ∧ ("GET" : String) ≠ "post" ∧
    run_http_query (testEngine (.ok ()) none) () "GET" (.other "None") none
        false false =
      .error ⟨405, "GraphQL only supports GET and POST requests.",
        some [("Allow", "GET, POST")]⟩ :=
  ⟨by decide, by decide,
    claim_C9_only_lowercase_get_post _ () "GET" _ none false false
      ⟨by decide, by decide⟩⟩

/-- Compact encoding followed by JSON decoding restores any value whose
objects carry pairwise-distinct keys (the invariant of every value coming
from a Python `dict`). -/
theorem json_loads_encode (v : JValue) (hnd : nodupKeys v = true) :
    json_loads (json_encode v false) = some v := by
  have h := (parseValue_serialize_aux ((serialize v).length + 1)).1 v []
    (by have := jsize_le_serialize v; omega) hnd rfl
  rw [List.append_nil] at h
  show (match parseValue ((serialize v).length + 1) (serialize v) with
        | some (w, rest) => if skipWs rest = [] then some w else none
        | none => none) = some v
  rw [h]
  rfl

/-- The compact encoding of a value is never the empty string, so it is
truthy and `load_json_variables` really decodes it. -/
theorem json_encode_ne_empty (v : JValue) :
    (json_encode v false == "") = false := by
  obtain ⟨c, cs, hse, -, -, -⟩ := serialize_head v
  refine beq_eq_false_iff_ne.mpr ?_
  intro h
  have hd2 : c :: cs = ("" : String).data := by
    rw [← hse]
    exact congrArg String.data h
  exact List.cons_ne_nil c cs hd2

/-- Claim C8: for a structured mapping — an object value whose keys are
pairwise distinct at every level, as Python dicts guarantee — serializing
with `json_encode` and handing the resulting text to `load_json_variables`
round-trips: the decoder returns exactly the original mapping. -/
theorem claim_C8_encode_decode_roundtrip (fs : List (String × JValue))
    (hnd : nodupKeys (JValue.obj fs) = true) :
    load_json_variables (some (.str (json_encode (JValue.obj fs) false))) =
      .ok (some (JValue.obj fs)) := by
  show (if !(json_encode (JValue.obj fs) false == "") then
      match json_loads (json_encode (JValue.obj fs) false) with
      | some w => Except.ok (some w)
      | none => Except.error
          (HttpQueryError.mk 400 "Variables are invalid JSON." none)
    else Except.ok (some (JValue.str (json_encode (JValue.obj fs) false))))
      = _
  rw [json_encode_ne_empty (JValue.obj fs)]
  show (match json_loads (json_encode (JValue.obj fs) false) with
        | some w => Except.ok (some w)
        | none => Except.error
            (HttpQueryError.mk 400 "Variables are invalid JSON." none))
      = _
  rw [json_loads_encode (JValue.obj fs) hnd]

/-- Claim C8 witness: the theorem applied to the concrete mapping
with keys a and b, whose values exercise numbers, strings, null, booleans
and a nested array. -/
theorem claim_C8_witness :
    nodupKeys (JValue.obj [("a", JValue.num 1),
      ("b", JValue.arr [JValue.str "x", JValue.null, JValue.bool true])]) =
        true ∧
    load_json_variables (some (.str (json_encode (JValue.obj
        [("a", JValue.num 1), ("b", JValue.arr [JValue.str "x", JValue.null,
          JValue.bool true])]) false))) =
      .ok (some (JValue.obj [("a", JValue.num 1),
        ("b", JValue.arr [JValue.str "x", JValue.null,
          JValue.bool true])])) :=
  ⟨by simp [nodupKeys, nodupKeysMembers, nodupKeysElems, memKey],
    claim_C8_encode_decode_roundtrip
      [("a", JValue.num 1), ("b", JValue.arr [JValue.str "x", JValue.null,
        JValue.bool true])]
      (by simp [nodupKeys, nodupKeysMembers, nodupKeysElems, memKey])⟩

end GraphQLServer
